import Mathlib

/-!
Verification development for the pygama streaming decode-and-route core.

The Python source is shallowly embedded:
* an ORCA packet (a 1-D `numpy.uint32` array) becomes a `List Nat` of 32-bit
  words; bit operations use `Nat` with explicit masks, and where the 32-bit
  width matters a `< 2^32` hypothesis is carried;
* `VectorOfVectors` (two numpy arrays wrapped in `pygama.lgdo.Array`) becomes
  a structure of two lists; the `uint32` cumulative-length entries are stored
  reduced `% 2^32`;
* the `DataStreamer` packet loop is embedded as a recursion over the sequence
  of outcomes the overloaded `read_packet` would produce.
-/

/-! ## orca_packet.py -/

/-- `is_short`: `bool(packet[0] >> 31)` — true iff the top bit of the first
word is set. Packets are nonempty word lists; the first word is `headD 0`. -/
def is_short (packet : List Nat) : Bool :=
  packet.headD 0 >>> 31 != 0

/-- `get_n_words`: 1 for a short packet, else `packet[0] & 0x3FFFF`. -/
def get_n_words (packet : List Nat) : Nat :=
  if is_short packet then 1 else packet.headD 0 &&& 0x3FFFF

/-- `get_data_id`: short form uses mask `0xFC000000` (shift by 26), long form
uses mask `0xFFFC0000` (shift by 18). -/
def get_data_id (packet : List Nat) (shift : Bool) : Nat :=
  if is_short packet then
    if shift then (packet.headD 0 &&& 0xFC000000) >>> 26
    else packet.headD 0 &&& 0xFC000000
  else
    if shift then (packet.headD 0 &&& 0xFFFC0000) >>> 18
    else packet.headD 0 &&& 0xFFFC0000

/-- Masking with a shifted mask then shifting down extracts the field. -/
theorem and_shiftLeft_shiftRight (w m k : Nat) :
    (w &&& (m <<< k)) >>> k = (w >>> k) &&& m := by
  apply Nat.eq_of_testBit_eq
  intro i
  simp only [Nat.testBit_shiftRight, Nat.testBit_and, Nat.testBit_shiftLeft]
  have hk : k ≤ k + i := Nat.le_add_right k i
  simp [hk, Nat.add_sub_cancel_left]

/-- Masking with a shifted mask keeps the field in place. -/
theorem and_shiftLeft_eq (w m k : Nat) :
    w &&& (m <<< k) = ((w >>> k) &&& m) <<< k := by
  apply Nat.eq_of_testBit_eq
  intro i
  simp only [Nat.testBit_and, Nat.testBit_shiftLeft, Nat.testBit_shiftRight]
  rcases Nat.lt_or_ge i k with h | h
  · simp [Nat.not_le.mpr h]
  · simp [h, Nat.add_sub_cancel' h, Bool.and_left_comm]

theorem mask26 : (0xFC000000 : Nat) = 0x3F <<< 26 := by decide

theorem mask18 : (0xFFFC0000 : Nat) = 0x3FFF <<< 18 := by decide

/-- Claim C5: for every packet whose first word has bit 31 set, `is_short`
is true, `get_n_words` returns exactly 1, and `get_data_id` with shift
returns the 6-bit field in bits 26–31 of the first word, independent of the
payload words. -/
theorem short_packet_fields (w : Nat) (rest : List Nat)
    (_hw : w < 2 ^ 32) (hbit : w.testBit 31 = true) :
    is_short (w :: rest) = true ∧ get_n_words (w :: rest) = 1 ∧
    get_data_id (w :: rest) true = (w >>> 26) &&& 0x3F := by
  have hdiv : w / 2 ^ 31 % 2 = 1 := by
    rw [Nat.testBit_to_div_mod] at hbit
    exact of_decide_eq_true hbit
  have hs : is_short (w :: rest) = true := by
    simp only [is_short, List.headD_cons, bne_iff_ne, ne_eq]
    rw [Nat.shiftRight_eq_div_pow]
    omega
  refine ⟨hs, ?_, ?_⟩
  · simp [get_n_words, hs]
  · have hx : (w &&& 0xFC000000) >>> 26 = (w >>> 26) &&& 0x3F := by
      rw [mask26, and_shiftLeft_shiftRight]
    simp [get_data_id, hs, hx]

/-- Witness for `short_packet_fields` at the short packet `[0x80000007, 5]`. -/
theorem short_packet_fields_witness :
    is_short [0x80000007, 5] = true ∧ get_n_words [0x80000007, 5] = 1 ∧
    get_data_id [0x80000007, 5] true = (0x80000007 >>> 26) &&& 0x3F :=
  short_packet_fields 0x80000007 [5] (by decide) (by decide)

/-- Counterexample to claim C4 as stated: for the long packet `[0x01000000]`
(bit 24 set, bit 31 clear), `get_data_id` with shift does not return bits
18–23 of the first word shifted down, and without shift does not return bits
18–23 in place: the long-form mask `0xFFFC0000` covers bits 18–31, not
18–23. -/
theorem get_data_id_long_six_bit_counterexample :
    is_short [0x01000000] = false ∧
    get_data_id [0x01000000] true ≠ (0x01000000 >>> 18) &&& 0x3F ∧
    get_data_id [0x01000000] false ≠ 0x01000000 &&& 0x00FC0000 := by
  decide

/-- Claim C4 (amended): for every long (non-short) packet, `get_data_id`
with shift returns the 14-bit field in bits 18–31 of the first word shifted
down to bit 0, and without shift returns those same bits unshifted in place
at bit 18. -/
theorem get_data_id_long (w : Nat) (rest : List Nat)
    (h : is_short (w :: rest) = false) :
    get_data_id (w :: rest) true = (w >>> 18) &&& 0x3FFF ∧
    get_data_id (w :: rest) false = ((w >>> 18) &&& 0x3FFF) <<< 18 := by
  have hx : (w &&& 0xFFFC0000) >>> 18 = (w >>> 18) &&& 0x3FFF := by
    rw [mask18, and_shiftLeft_shiftRight]
  have hy : w &&& 0xFFFC0000 = ((w >>> 18) &&& 0x3FFF) <<< 18 := by
    rw [mask18, and_shiftLeft_eq]
  constructor
  · simp [get_data_id, h, hx]
  · simp only [get_data_id, h, List.headD_cons, Bool.false_eq_true, if_false,
      Bool.true_eq_false]
    simp [hy]

/-- Witness for `get_data_id_long` at the long packet `[0x00040001]`. -/
theorem get_data_id_long_witness :
    get_data_id [0x00040001] true = (0x00040001 >>> 18) &&& 0x3FFF ∧
    get_data_id [0x00040001] false = ((0x00040001 >>> 18) &&& 0x3FFF) <<< 18 :=
  get_data_id_long 0x00040001 [] (by decide)

/-! ## vectorofvectors.py

`VectorOfVectors` keeps two numpy arrays (each wrapped in a `pygama.lgdo.Array`):
`flattened_data` (the contiguous payload, its numpy length is the capacity) and
`cumulative_length` (`uint32` cumulative end offsets, one slot per row).  The
wrappers are flattened into plain lists; payload elements are modelled as `Int`
(the dtype is irrelevant to the claims); the `uint32` offsets are stored
reduced `% 2^32`. -/

structure VectorOfVectors where
  flattened_data : List Int
  cumulative_length : List Nat
deriving Repr, DecidableEq

/-- A numpy ndarray argument: its shape and its flat data.  `set_vector`
checks `len(nda.shape) != 1`; for a one-dimensional array
`len(nda) = shape[0] = data.length`. -/
structure NdArray where
  shape : List Nat
  data : List Int
deriving Repr, DecidableEq

/-- The growth loop of `set_vector`:
`while end >= len(flattened_data.nda): nda.resize(2*len(nda))`.
Returns the final numpy length.  The source loops forever when the current
length is 0 (doubling 0 stays 0); the `0 < len` guard makes the recursion
well-founded and is never reached with length 0 in any claim (all carry a
positive-capacity hypothesis). -/
def growWhile (len e : Nat) : Nat :=
  if h : 0 < len ∧ len ≤ e then growWhile (2 * len) e else len
termination_by e + 1 - len
decreasing_by omega

theorem growWhile_eq (len e : Nat) :
    growWhile len e = if 0 < len ∧ len ≤ e then growWhile (2 * len) e else len := by
  rw [growWhile]
  split <;> simp_all

theorem growWhile_spec_aux :
    ∀ d len e : Nat, e + 1 - len ≤ d → 0 < len →
      e < growWhile len e ∧ len ≤ growWhile len e ∧
        ∃ k, growWhile len e = len * 2 ^ k := by
  intro d
  induction d with
  | zero =>
    intro len e hd h0
    rw [growWhile_eq, if_neg (by omega)]
    exact ⟨by omega, Nat.le_refl _, 0, by simp⟩
  | succ d ih =>
    intro len e hd h0
    by_cases hc : len ≤ e
    · rw [growWhile_eq, if_pos ⟨h0, hc⟩]
      obtain ⟨h1, h2, k, h3⟩ := ih (2 * len) e (by omega) (by omega)
      exact ⟨h1, by omega, k + 1, by rw [h3]; ring⟩
    · rw [growWhile_eq, if_neg (by omega)]
      exact ⟨by omega, Nat.le_refl _, 0, by simp⟩

theorem growWhile_lt (len e : Nat) (h : 0 < len) : e < growWhile len e :=
  (growWhile_spec_aux (e + 1 - len) len e (Nat.le_refl _) h).1

theorem growWhile_le_self (len e : Nat) (h : 0 < len) : len ≤ growWhile len e :=
  (growWhile_spec_aux (e + 1 - len) len e (Nat.le_refl _) h).2.1

theorem growWhile_pow (len e : Nat) (h : 0 < len) :
    ∃ k, growWhile len e = len * 2 ^ k :=
  (growWhile_spec_aux (e + 1 - len) len e (Nat.le_refl _) h).2.2

/-- `VectorOfVectors.set_vector(i_vec, nda)`: validates `i_vec` against the
`cumulative_length` row capacity and `nda.shape` against one-dimensionality,
computes `start`/`end`, doubles `flattened_data` while `end >= len`
(numpy `resize` zero-fills the new tail), writes `nda` into
`flattened_data[start:end]` and stores `end` into the `uint32` slot
`cumulative_length[i_vec]`.  A raised `ValueError` is an `Except.error`. -/
def set_vector (v : VectorOfVectors) (i_vec : Int) (nda : NdArray) :
    Except String VectorOfVectors :=
  if i_vec < 0 ∨ i_vec > (v.cumulative_length.length : Int) - 1 then
    .error "bad i_vec"
  else if nda.shape.length ≠ 1 then
    .error "nda had bad shape"
  else
    let i := i_vec.toNat
    let start := if i = 0 then 0 else v.cumulative_length.getD (i - 1) 0
    let e := start + nda.shape.headD 0
    let newLen := growWhile v.flattened_data.length e
    let grown := v.flattened_data ++
      List.replicate (newLen - v.flattened_data.length) 0
    .ok { flattened_data :=
            grown.take start ++ nda.data ++ grown.drop (start + nda.data.length),
          cumulative_length :=
            v.cumulative_length.set i (e % 4294967296) }

/-- Row `i` as produced by one `__next__` step of the iterator (numpy slice
`flattened_data[start:end]`, which clamps out-of-range bounds and yields `[]`
when `start ≥ end`). -/
def getRow (v : VectorOfVectors) (i : Nat) : List Int :=
  let start := if i = 0 then 0 else v.cumulative_length.getD (i - 1) 0
  let e := v.cumulative_length.getD i 0
  (v.flattened_data.drop start).take (e - start)

/-- Full sequential iteration (`__iter__`/`__next__` until the `IndexError`
on `cumulative_length[index]` raises `StopIteration`): one row per
`cumulative_length` slot, in index order. -/
def vovIter (v : VectorOfVectors) : List (List Int) :=
  (List.range v.cumulative_length.length).map (getRow v)

/-- Writing rows `r_k, r_(k+1), …` at consecutive indices starting at `k`
via `set_vector`, propagating the first error. -/
def setRows : VectorOfVectors → Nat → List (List Int) →
    Except String VectorOfVectors
  | v, _, [] => .ok v
  | v, k, r :: rs =>
    match set_vector v (k : Int) ⟨[r.length], r⟩ with
    | .error s => .error s
    | .ok v' => setRows v' (k + 1) rs

/-- Cumulative offset before row `k`: the total length of rows `0..k-1`. -/
def rowOffset (rows : List (List Int)) (k : Nat) : Nat :=
  ((rows.take k).map List.length).sum

theorem rowOffset_zero (rows : List (List Int)) : rowOffset rows 0 = 0 := rfl

theorem rowOffset_succ (rows : List (List Int)) (k : Nat) (hk : k < rows.length) :
    rowOffset rows (k + 1) = rowOffset rows k + (rows.getD k []).length := by
  unfold rowOffset
  rw [List.take_succ]
  have : rows[k]? = some (rows.getD k []) := by
    rw [List.getD_eq_getElem?_getD, List.getElem?_eq_getElem hk]
    simp [List.getElem?_eq_getElem hk]
  rw [this]
  simp

theorem rowOffset_mono (rows : List (List Int)) {i j : Nat} (h : i ≤ j) :
    rowOffset rows i ≤ rowOffset rows j := by
  unfold rowOffset
  have h1 : rows.take i = (rows.take j).take i := by
    rw [List.take_take, Nat.min_eq_left h]
  rw [h1]
  have h2 := List.take_append_drop i (rows.take j)
  calc (((rows.take j).take i).map List.length).sum
      ≤ (((rows.take j).take i).map List.length).sum
        + (((rows.take j).drop i).map List.length).sum := Nat.le_add_right _ _
    _ = ((rows.take j).map List.length).sum := by
        rw [← List.sum_append, ← List.map_append, h2]

/-- Slicing the concatenation of all rows at the cumulative offsets recovers
row `i`. -/
theorem flatten_slice (rows : List (List Int)) :
    ∀ i, i < rows.length →
      ((rows.flatten.drop (rowOffset rows i)).take (rows.getD i []).length)
        = rows.getD i [] := by
  induction rows with
  | nil => intro i hi; simp at hi
  | cons r rs ih =>
    intro i hi
    cases i with
    | zero =>
      simp only [rowOffset_zero, List.drop_zero, List.flatten_cons,
        List.getD_cons_zero]
      exact List.take_left r rs.flatten
    | succ i =>
      have hoff : rowOffset (r :: rs) (i + 1) = r.length + rowOffset rs i := by
        unfold rowOffset
        simp [Nat.add_comm]
      rw [hoff, List.getD_cons_succ, List.flatten_cons, List.drop_append]
      exact ih i (by simpa using hi)

/-- State invariant after writing rows `0..k-1` of `rows` into a store whose
row capacity is `m`: offsets `0..k-1` hold the cumulative sums (as stored
`uint32` values) and the flattened prefix holds the concatenated rows. -/
def InvRT (rows : List (List Int)) (m k : Nat) (v : VectorOfVectors) : Prop :=
  v.cumulative_length.length = m ∧
  0 < v.flattened_data.length ∧
  rowOffset rows k ≤ v.flattened_data.length ∧
  v.flattened_data.take (rowOffset rows k) = (rows.take k).flatten ∧
  ∀ j, j < k → v.cumulative_length.getD j 0 = rowOffset rows (j + 1) % 4294967296

theorem set_vector_step (rows : List (List Int)) (m k : Nat)
    (v : VectorOfVectors) (hm : rows.length ≤ m) (hk : k < rows.length)
    (hsum : rowOffset rows rows.length < 4294967296)
    (hinv : InvRT rows m k v) :
    ∃ v', set_vector v (k : Int) ⟨[(rows.getD k []).length], rows.getD k []⟩
        = .ok v' ∧ InvRT rows m (k + 1) v' := by
  obtain ⟨hlen, hpos, hoff, hpre, hcl⟩ := hinv
  set r := rows.getD k [] with hr
  -- any rowOffset is bounded by the total, hence below 2^32
  have hbound : ∀ j, j ≤ rows.length → rowOffset rows j < 4294967296 :=
    fun j hj => Nat.lt_of_le_of_lt (rowOffset_mono rows hj) hsum
  -- the branch guards do not fire
  have hguard : ¬((k : Int) < 0 ∨ (k : Int) > (v.cumulative_length.length : Int) - 1) := by
    rw [hlen]
    omega
  have hstart : (if k = 0 then 0 else v.cumulative_length.getD (k - 1) 0)
      = rowOffset rows k := by
    cases k with
    | zero => simp [rowOffset_zero]
    | succ k' =>
      have := hcl k' (Nat.lt_succ_self k')
      simp only [Nat.succ_ne_zero, if_false, Nat.succ_sub_one]
      rw [this, Nat.mod_eq_of_lt (hbound (k' + 1) (by omega))]
  have hend : rowOffset rows k + r.length = rowOffset rows (k + 1) :=
    (rowOffset_succ rows k hk).symm
  have hkm : k < v.cumulative_length.length := by omega
  set e := rowOffset rows (k + 1) with he
  set L := growWhile v.flattened_data.length e with hL
  have hLlt : e < L := growWhile_lt _ _ hpos
  have hLge : v.flattened_data.length ≤ L := growWhile_le_self _ _ hpos
  set grown := v.flattened_data ++ List.replicate (L - v.flattened_data.length) 0
    with hgrown
  have hgrown_len : grown.length = L := by
    rw [hgrown, List.length_append, List.length_replicate]
    omega
  have hSk : rowOffset rows k ≤ v.flattened_data.length := hoff
  have hgrown_take : grown.take (rowOffset rows k)
      = v.flattened_data.take (rowOffset rows k) := by
    rw [hgrown, List.take_append_of_le_length hSk]
  refine ⟨⟨grown.take (rowOffset rows k) ++ r ++ grown.drop e,
          v.cumulative_length.set k (e % 4294967296)⟩, ?_, ?_⟩
  · -- evaluating set_vector
    simp only [set_vector, if_neg hguard]
    rw [if_neg (by simp)]
    simp only [Int.toNat_natCast, hstart, List.headD_cons]
    rw [hend, ← hL, ← hgrown]
  · -- re-establishing the invariant at k + 1
    have hAlen : (grown.take (rowOffset rows k)).length = rowOffset rows k := by
      rw [List.length_take, hgrown_len]
      omega
    have hflatlen : (grown.take (rowOffset rows k) ++ r ++ grown.drop e).length
        = L := by
      rw [List.length_append, List.length_append, hAlen, List.length_drop,
        hgrown_len]
      omega
    refine ⟨by simpa using hlen, ?_, ?_, ?_, ?_⟩
    · rw [hflatlen]; omega
    · rw [hflatlen]; omega
    · -- the flattened prefix now also carries row k
      have htake : (grown.take (rowOffset rows k) ++ r ++ grown.drop e).take
          (rowOffset rows (k + 1))
          = grown.take (rowOffset rows k) ++ r := by
        apply List.take_left'
        rw [List.length_append, hAlen]
        omega
      rw [htake, hgrown_take, hpre]
      have hgetk : rows[k]? = some r := by
        rw [hr, List.getD_eq_getElem?_getD, List.getElem?_eq_getElem hk]
        simp [List.getElem?_eq_getElem hk]
      rw [List.take_succ, hgetk]
      simp
    · intro j hj
      rcases Nat.lt_or_ge j k with hjk | hjk
      · have hne : k ≠ j := by omega
        rw [List.getD_eq_getElem?_getD, List.getElem?_set_ne hne,
          ← List.getD_eq_getElem?_getD]
        exact hcl j hjk
      · have hjeq : j = k := by omega
        subst hjeq
        rw [List.getD_eq_getElem?_getD, List.getElem?_set_self hkm]
        simp

theorem setRows_chain (rows : List (List Int)) (m : Nat)
    (hm : rows.length ≤ m) (hsum : rowOffset rows rows.length < 4294967296) :
    ∀ d k v, rows.length - k ≤ d → k ≤ rows.length → InvRT rows m k v →
      ∃ v', setRows v k (rows.drop k) = .ok v' ∧
        InvRT rows m rows.length v' := by
  intro d
  induction d with
  | zero =>
    intro k v hd hk hinv
    have hke : k = rows.length := by omega
    subst hke
    rw [List.drop_length]
    exact ⟨v, rfl, hinv⟩
  | succ d ih =>
    intro k v hd hk hinv
    rcases Nat.eq_or_lt_of_le hk with heq | hlt
    · subst heq
      rw [List.drop_length]
      exact ⟨v, rfl, hinv⟩
    · obtain ⟨v', hsv, hinv'⟩ := set_vector_step rows m k v hm hlt hsum hinv
      have hdrop : rows.drop k = rows.getD k [] :: rows.drop (k + 1) := by
        rw [List.drop_eq_getElem_cons hlt]
        rw [List.getD_eq_getElem rows [] hlt]
      rw [hdrop]
      simp only [setRows, hsv]
      exact ih (k + 1) v' (by omega) (by omega) hinv'

/-- Claim C1: writing rows `r0..rn` via `set_vector` at indices `0..n` in
order (n below the row capacity, the flattened capacity positive so the
doubling loop terminates, total payload within the `uint32` offset range)
and then iterating sequentially yields exactly row `ri` as the i-th
iterated element, growth doublings included. -/
theorem set_vector_iter_round_trip (v : VectorOfVectors)
    (rows : List (List Int))
    (hcap : 0 < v.flattened_data.length)
    (hrows : rows.length ≤ v.cumulative_length.length)
    (hsum : rowOffset rows rows.length < 4294967296) :
    ∃ v', setRows v 0 rows = .ok v' ∧
      ∀ i, i < rows.length → (vovIter v')[i]? = some (rows.getD i []) := by
  have hinv0 : InvRT rows v.cumulative_length.length 0 v := by
    refine ⟨rfl, hcap, by simp [rowOffset_zero], by simp [rowOffset_zero], ?_⟩
    intro j hj
    omega
  obtain ⟨v', hsv, hinv⟩ := setRows_chain rows v.cumulative_length.length
    hrows hsum rows.length 0 v (by omega) (by omega) hinv0
  rw [List.drop_zero] at hsv
  refine ⟨v', hsv, ?_⟩
  obtain ⟨hlen', hpos', hoff', hpre', hcl'⟩ := hinv
  have hbound : ∀ j, j ≤ rows.length → rowOffset rows j < 4294967296 :=
    fun j hj => Nat.lt_of_le_of_lt (rowOffset_mono rows hj) hsum
  have hN : v'.flattened_data.take (rowOffset rows rows.length)
      = rows.flatten := by
    have := hpre'
    rwa [List.take_length] at this
  intro i hi
  have hrow : (vovIter v')[i]? = some (getRow v' i) := by
    unfold vovIter
    rw [List.getElem?_map, List.getElem?_range (by omega)]
    rfl
  rw [hrow]
  congr 1
  have hsucc := rowOffset_succ rows i hi
  have hstart : (if i = 0 then 0 else v'.cumulative_length.getD (i - 1) 0)
      = rowOffset rows i := by
    cases i with
    | zero => simp [rowOffset_zero]
    | succ i' =>
      have := hcl' i' (by omega)
      simp only [Nat.succ_ne_zero, if_false, Nat.succ_sub_one]
      rw [this, Nat.mod_eq_of_lt (hbound (i' + 1) (by omega))]
  have hei : v'.cumulative_length.getD i 0 = rowOffset rows (i + 1) := by
    rw [hcl' i hi, Nat.mod_eq_of_lt (hbound (i + 1) (by omega))]
  unfold getRow
  simp only [hstart, hei]
  have hdiff : rowOffset rows (i + 1) - rowOffset rows i
      = (rows.getD i []).length := by omega
  rw [hdiff]
  have hle : rowOffset rows i + (rows.getD i []).length
      ≤ rowOffset rows rows.length := by
    rw [← hsucc]
    exact rowOffset_mono rows (by omega)
  have key : (v'.flattened_data.drop (rowOffset rows i)).take
      (rows.getD i []).length
      = ((v'.flattened_data.take (rowOffset rows rows.length)).drop
          (rowOffset rows i)).take (rows.getD i []).length := by
    rw [List.drop_take, List.take_take,
      Nat.min_eq_left (by omega)]
  rw [key, hN]
  exact flatten_slice rows i hi

/-- Witness for `set_vector_iter_round_trip`: capacity-2 store with three row
slots, rows `[1,2,3]`, `[]`, `[4]` (the first row alone forces a growth
doubling). -/
theorem set_vector_iter_round_trip_witness :
    0 < (VectorOfVectors.mk [0, 0] [0, 0, 0]).flattened_data.length ∧
    ∃ v', setRows ⟨[0, 0], [0, 0, 0]⟩ 0 [[1, 2, 3], [], [4]] = .ok v' ∧
      ∀ i, i < [[1, 2, 3], [], [4]].length →
        (vovIter v')[i]? = some ([[1, 2, 3], ([] : List Int), [4]].getD i []) :=
  ⟨by decide,
   set_vector_iter_round_trip ⟨[0, 0], [0, 0, 0]⟩ [[1, 2, 3], [], [4]]
     (by decide) (by decide) (by decide)⟩

/-- Claim C6: `set_vector(i_vec, nda)` raises (returns an error) iff `i_vec`
lies outside `[0, rowCapacity)` or `nda` is not one-dimensional.  Both checks
precede every mutation in the source, so an error leaves the store untouched
(in this embedding an error result carries no modified store at all). -/
theorem set_vector_error_iff (v : VectorOfVectors) (i_vec : Int)
    (nda : NdArray) :
    (∃ s, set_vector v i_vec nda = .error s) ↔
      (i_vec < 0 ∨ (v.cumulative_length.length : Int) ≤ i_vec ∨
        nda.shape.length ≠ 1) := by
  unfold set_vector
  constructor
  · intro hex
    by_contra hcon
    push_neg at hcon
    obtain ⟨hge, hlt, hshape⟩ := hcon
    rw [if_neg (by omega), if_neg (by simpa using hshape)] at hex
    obtain ⟨s, hs⟩ := hex
    simp at hs
  · intro hor
    rcases hor with h | h | h
    · rw [if_pos (Or.inl h)]
      exact ⟨_, rfl⟩
    · rw [if_pos (Or.inr (by omega))]
      exact ⟨_, rfl⟩
    · by_cases h1 : i_vec < 0 ∨ i_vec > (v.cumulative_length.length : Int) - 1
      · rw [if_pos h1]
        exact ⟨_, rfl⟩
      · rw [if_neg h1, if_pos h]
        exact ⟨_, rfl⟩

/-- Counterexample to claim C7 as stated: store with flattened capacity 2 and
one row slot; writing the length-2 row `[5, 6]` makes `end = 2` equal to the
current capacity — the claim says no growth occurs, but the source's
`while end >= len(...)` loop doubles the buffer to length 4. -/
theorem set_vector_exact_fit_growth_counterexample :
    set_vector ⟨[0, 0], [0]⟩ 0 ⟨[2], [5, 6]⟩
      = .ok ⟨[5, 6, 0, 0], [2]⟩ ∧
    ([5, 6, 0, 0] : List Int).length ≠ ([0, 0] : List Int).length := by
  have g1 : growWhile 2 2 = 4 := by
    rw [growWhile_eq, if_pos (by omega), growWhile_eq, if_neg (by omega)]
  constructor
  · unfold set_vector
    rw [if_neg (by norm_num), if_neg (by norm_num)]
    norm_num [g1]
    decide
  · decide

/-- Claim C7 (amended): with `start` the previous cumulative offset (or 0)
and `end = start + len(values)`, the flattened capacity is doubled while
`end ≥` the current capacity — in particular growth also occurs when the row
fits exactly — the final capacity is the original times a power of two,
exceeds `end`, and is unchanged iff no doubling was needed; every doubling
preserves the already-stored contents (all elements outside the written slice
`[start, end)` are unchanged). -/
theorem set_vector_growth (v : VectorOfVectors) (k : Nat) (nda : List Int)
    (hcap : 0 < v.flattened_data.length)
    (hk : k < v.cumulative_length.length) :
    ∃ v', set_vector v (k : Int) ⟨[nda.length], nda⟩ = .ok v' ∧
      ((∃ j, v'.flattened_data.length = v.flattened_data.length * 2 ^ j) ∧
       (if k = 0 then 0 else v.cumulative_length.getD (k - 1) 0) + nda.length
         < v'.flattened_data.length ∧
       ((if k = 0 then 0 else v.cumulative_length.getD (k - 1) 0) + nda.length
           < v.flattened_data.length →
         v'.flattened_data.length = v.flattened_data.length) ∧
       (v.flattened_data.length ≤
           (if k = 0 then 0 else v.cumulative_length.getD (k - 1) 0) + nda.length →
         v.flattened_data.length < v'.flattened_data.length) ∧
       (∀ j, j < (if k = 0 then 0 else v.cumulative_length.getD (k - 1) 0) →
         v'.flattened_data.getD j 0 = v.flattened_data.getD j 0) ∧
       (∀ j, (if k = 0 then 0 else v.cumulative_length.getD (k - 1) 0)
             + nda.length ≤ j →
         j < v.flattened_data.length →
         v'.flattened_data.getD j 0 = v.flattened_data.getD j 0)) := by
  have hguard : ¬((k : Int) < 0 ∨ (k : Int) > (v.cumulative_length.length : Int) - 1) := by
    omega
  set start := if k = 0 then 0 else v.cumulative_length.getD (k - 1) 0 with hst
  set e := start + nda.length with he
  set L := growWhile v.flattened_data.length e with hL
  have hLlt : e < L := growWhile_lt _ _ hcap
  have hLge : v.flattened_data.length ≤ L := growWhile_le_self _ _ hcap
  obtain ⟨p, hp⟩ := growWhile_pow v.flattened_data.length e hcap
  set grown := v.flattened_data ++ List.replicate (L - v.flattened_data.length) 0
    with hgrown
  have hgrown_len : grown.length = L := by
    rw [hgrown, List.length_append, List.length_replicate]
    omega
  have hgrown_getD : ∀ j, j < L →
      grown.getD j 0 = v.flattened_data.getD j 0 := by
    intro j hj
    rcases Nat.lt_or_ge j v.flattened_data.length with hjl | hjl
    · rw [List.getD_eq_getElem?_getD, List.getD_eq_getElem?_getD, hgrown,
        List.getElem?_append_left hjl]
    · have hrep : j - v.flattened_data.length < L - v.flattened_data.length := by
        omega
      rw [List.getD_eq_getElem?_getD, List.getD_eq_getElem?_getD, hgrown,
        List.getElem?_append_right hjl, List.getElem?_replicate,
        List.getElem?_eq_none hjl]
      simp [hrep]
  set flatNew := grown.take start ++ nda ++ grown.drop (start + nda.length)
    with hflatNew
  have hAlen : (grown.take start).length = start := by
    rw [List.length_take, hgrown_len]
    omega
  have hlen' : flatNew.length = L := by
    rw [hflatNew, List.length_append, List.length_append, hAlen,
      List.length_drop, hgrown_len]
    omega
  have hpowc : ∃ j, flatNew.length = v.flattened_data.length * 2 ^ j := by
    exact ⟨p, by rw [hlen', hL, hp]⟩
  have hltc : e < flatNew.length := by omega
  have hfitc : e < v.flattened_data.length →
      flatNew.length = v.flattened_data.length := by
    intro hfit
    rw [hlen', hL, growWhile_eq, if_neg (by omega)]
  have hgrowc : v.flattened_data.length ≤ e →
      v.flattened_data.length < flatNew.length := by
    intro hge
    rw [hlen', hL, growWhile_eq, if_pos ⟨hcap, by omega⟩]
    have := growWhile_le_self (2 * v.flattened_data.length) e (by omega)
    omega
  have hp1c : ∀ j, j < start → flatNew.getD j 0 = v.flattened_data.getD j 0 := by
    intro j hj
    have hjL : j < L := by omega
    rw [hflatNew, List.getD_eq_getElem?_getD]
    rw [List.getElem?_append_left (by rw [List.length_append, hAlen]; omega)]
    rw [List.getElem?_append_left (by omega)]
    rw [List.getElem?_take_of_lt hj, ← List.getD_eq_getElem?_getD]
    exact hgrown_getD j hjL
  have hp2c : ∀ j, e ≤ j → j < v.flattened_data.length →
      flatNew.getD j 0 = v.flattened_data.getD j 0 := by
    intro j hje hjl
    have hjL : j < L := by omega
    rw [hflatNew, List.getD_eq_getElem?_getD]
    rw [List.getElem?_append_right (by rw [List.length_append, hAlen]; omega)]
    rw [List.length_append, hAlen]
    rw [List.getElem?_drop]
    have hidx : start + nda.length + (j - (start + nda.length)) = j := by omega
    rw [hidx, ← List.getD_eq_getElem?_getD]
    exact hgrown_getD j hjL
  refine ⟨⟨flatNew, v.cumulative_length.set k (e % 4294967296)⟩, ?_,
    hpowc, hltc, hfitc, hgrowc, hp1c, hp2c⟩
  simp only [set_vector, if_neg hguard]
  rw [if_neg (by simp)]
  simp only [Int.toNat_natCast, List.headD_cons]

/-- Witness for `set_vector_growth`: an exact-fit write (`end = capacity = 2`)
into a capacity-2 two-row store, which strictly grows the buffer. -/
theorem set_vector_growth_witness :
    ∃ v', set_vector ⟨[7, 8], [0, 0]⟩ ((0 : Nat) : Int) ⟨[2], [5, 6]⟩ = .ok v' ∧
      ([7, 8] : List Int).length < v'.flattened_data.length := by
  obtain ⟨v', hok, hpow, hlt, hfit, hgrow, hp1, hp2⟩ :=
    set_vector_growth ⟨[7, 8], [0, 0]⟩ 0 [5, 6] (by decide) (by decide)
  exact ⟨v', hok, hgrow (by simp)⟩

/-- Modelled from the spec: `pygama.lgdo.array.Array.resize` is not under
`src/` (only its caller `VectorOfVectors.resize` is); per the spec
`resize(newRowCount)` truncates/grows the array only, with numpy
`ndarray.resize` semantics — the prefix is kept and any new tail is
zero-filled. -/
def arrayResize (a : List Nat) (n : Nat) : List Nat :=
  a.take n ++ List.replicate (n - a.length) 0

/-- `VectorOfVectors.resize(new_size)`: the source is the single line
`self.cumulative_length.resize(new_size)` — only the offsets array is
touched. -/
def VectorOfVectors.resize (v : VectorOfVectors) (new_size : Nat) :
    VectorOfVectors :=
  { v with cumulative_length := arrayResize v.cumulative_length new_size }

/-- Claim C9: `resize(newRowCount)` only truncates or grows the offsets
(`cumulative_length`) array to the new row count, preserving the retained
prefix; the flattened payload buffer is unchanged. -/
theorem resize_offsets_only (v : VectorOfVectors) (n : Nat) :
    (v.resize n).flattened_data = v.flattened_data ∧
    (v.resize n).cumulative_length.length = n ∧
    ∀ j, j < min n v.cumulative_length.length →
      (v.resize n).cumulative_length.getD j 0
        = v.cumulative_length.getD j 0 := by
  refine ⟨rfl, ?_, ?_⟩
  · simp only [VectorOfVectors.resize, arrayResize, List.length_append,
      List.length_take, List.length_replicate]
    omega
  · intro j hj
    simp only [VectorOfVectors.resize, arrayResize]
    rw [List.getD_eq_getElem?_getD,
      List.getElem?_append_left (by rw [List.length_take]; omega),
      List.getElem?_take_of_lt (by omega), ← List.getD_eq_getElem?_getD]

/-- Witness for `resize_offsets_only`: shrinking a three-row store to two
rows keeps the payload and the first two offsets. -/
theorem resize_offsets_only_witness :
    ((VectorOfVectors.mk [1, 2] [3, 4, 5]).resize 2).flattened_data = [1, 2] ∧
    ((VectorOfVectors.mk [1, 2] [3, 4, 5]).resize 2).cumulative_length.length
      = 2 ∧
    ∀ j, j < min 2 ([3, 4, 5] : List Nat).length →
      ((VectorOfVectors.mk [1, 2] [3, 4, 5]).resize 2).cumulative_length.getD j 0
        = ([3, 4, 5] : List Nat).getD j 0 :=
  resize_offsets_only ⟨[1, 2], [3, 4, 5]⟩ 2

/-- Modelled from the spec: `pygama.lgdo.array.Array.__init__` is not under
`src/` (only its caller `VectorOfVectors.__init__` is); per the spec's data
model `Array(shape=(n,), dtype, fill_val)` allocates a typed buffer of `n`
elements holding `fill_val` — the claims depend only on the length and on the
zero fill, so an unspecified fill is modelled as zero. -/
def arrayAlloc {α : Type} (n : Nat) (fill : α) : List α :=
  List.replicate n fill

/-- `VectorOfVectors.__init__` on the allocating path the claim covers
(`shape_guess` supplied): allocate `cumulative_length` (`uint32`, zero fill,
length `shape_guess[0]`) when absent; then adopt `flattened_data`, or — when
it is `None` — raise `ValueError` if `dtype` is also `None` and otherwise
allocate `np.prod(shape_guess)` elements. -/
def vovInit (flattened_data : Option (List Int))
    (cumulative_length : Option (List Nat)) (shape_guess : Nat × Nat)
    (dtype : Option String) : Except String VectorOfVectors :=
  let cl := match cumulative_length with
    | none => arrayAlloc shape_guess.1 (0 : Nat)
    | some c => c
  match flattened_data with
  | none =>
    match dtype with
    | none => .error "flattened_data and dtype cannot both be None!"
    | some _ => .ok ⟨arrayAlloc (shape_guess.1 * shape_guess.2) (0 : Int), cl⟩
  | some fd => .ok ⟨fd, cl⟩

/-- Claim C10: constructing with `flattened_data = None` raises `ValueError`
iff `dtype` is also `None`; with a `dtype` supplied, construction allocates a
flattened buffer of length `shape_guess[0] * shape_guess[1]` and a
zero-filled cumulative-length array of length `shape_guess[0]`. -/
theorem vovInit_none_flattened (sg : Nat × Nat) (dtype : Option String) :
    ((∃ s, vovInit none none sg dtype = .error s) ↔ dtype = none) ∧
    (∀ d, dtype = some d →
      vovInit none none sg dtype =
        .ok ⟨List.replicate (sg.1 * sg.2) 0, List.replicate sg.1 0⟩) := by
  cases dtype <;> simp [vovInit, arrayAlloc]

/-- Witness for `vovInit_none_flattened` at `shape_guess = (2, 3)`,
`dtype = "float64"`. -/
theorem vovInit_none_flattened_witness :
    ((∃ s, vovInit none none (2, 3) (some "float64") = .error s) ↔
      some "float64" = none) ∧
    (∀ d, some "float64" = some d →
      vovInit none none (2, 3) (some "float64") =
        .ok ⟨List.replicate (2 * 3) 0, List.replicate 2 0⟩) :=
  vovInit_none_flattened (2, 3) (some "float64")

/-! ## data_streamer.py

`DataStreamer.read_packet` is overloaded by derived classes; the base class
only documents its contract: it returns whether data remains and updates the
engine's `any_full` flag and `n_bytes_read`.  The loop in `read_chunk` is
therefore embedded as a recursion over the sequence of outcomes successive
`read_packet` calls would produce; an exhausted outcome list models a call
reporting no data. -/

/-- Observable result of one `read_packet` call: the returned
`still_has_data` and the value of `self.any_full` right after the call. -/
structure PacketOutcome where
  still_has_data : Bool
  any_full : Bool
deriving Repr, DecidableEq

/-- `chunk_mode = self.chunk_mode if chunk_mode_override is None else
chunk_mode_override`. -/
def effective_chunk_mode (stored : String) (chunk_mode_override : Option String) :
    String :=
  match chunk_mode_override with
  | none => stored
  | some m => m

/-- The packet loop of `read_chunk`, returning the number of `read_packet`
calls made (`n_packets` is the count of packets read before this iteration):

```
while True:
    still_has_data = self.read_packet()
    if (not still_has_data) break
    n_packets += 1
    if read_one_packet or n_packets > rp_max: break
    if self.any_full: break
```
-/
def read_chunk_calls (read_one_packet : Bool) (rp_max : Nat) :
    List PacketOutcome → Nat → Nat
  | [], _ => 1
  | o :: rest, n_packets =>
    if o.still_has_data = false then 1
    else if read_one_packet || decide (n_packets + 1 > rp_max) then 1
    else if o.any_full then 1
    else 1 + read_chunk_calls read_one_packet rp_max rest (n_packets + 1)

/-- Number of `read_packet` calls a `read_chunk` invocation makes, starting
from zero packets read. -/
def read_chunk_n_calls (stored_mode : String)
    (chunk_mode_override : Option String) (rp_max : Nat)
    (stream : List PacketOutcome) : Nat :=
  read_chunk_calls
    (effective_chunk_mode stored_mode chunk_mode_override == "single_packet")
    rp_max stream 0

/-- The stop condition claim C2 attributes to the packet loop, transcribed
from the claim's words (a refinement reference, deliberately NOT read off the
source): after call `j` (1-based) the loop stops iff no data remained, or the
override policy is `single_packet` and one packet has been read, or `rp_max`
packets have been read, or the policy is `any_full` and the engine's
`any_full` flag is set. -/
def claimStopCond (mode : String) (rp_max : Nat) (stream : List PacketOutcome)
    (j : Nat) : Bool :=
  let o := stream.getD (j - 1) ⟨false, false⟩
  !o.still_has_data ||
    (o.still_has_data &&
      ((mode == "single_packet" && j == 1) || j == rp_max ||
        (mode == "any_full" && o.any_full)))

/-- The stop condition the source's loop actually implements, after call `j`
(1-based) when `k` packets had been read before the loop started: no data
remained, or the policy is `single_packet`, or more than `rp_max` packets
have been read, or the `any_full` flag is set (for every policy). -/
def codeStopCond (single : Bool) (rp_max : Nat) (stream : List PacketOutcome)
    (k j : Nat) : Bool :=
  let o := stream.getD (j - 1) ⟨false, false⟩
  !o.still_has_data || single || decide (k + j > rp_max) || o.any_full

theorem read_chunk_calls_spec (single : Bool) (rp_max : Nat) :
    ∀ (stream : List PacketOutcome) (k : Nat),
      1 ≤ read_chunk_calls single rp_max stream k ∧
      codeStopCond single rp_max stream k
        (read_chunk_calls single rp_max stream k) = true ∧
      ∀ j, 1 ≤ j → j < read_chunk_calls single rp_max stream k →
        codeStopCond single rp_max stream k j = false := by
  intro stream
  induction stream with
  | nil =>
    intro k
    refine ⟨by simp [read_chunk_calls], by simp [read_chunk_calls, codeStopCond], ?_⟩
    intro j h1 h2
    simp [read_chunk_calls] at h2
    omega
  | cons o rest ih =>
    intro k
    have hshift : ∀ j, 1 ≤ j →
        codeStopCond single rp_max (o :: rest) k (j + 1)
          = codeStopCond single rp_max rest (k + 1) j := by
      intro j hj
      unfold codeStopCond
      obtain ⟨j', rfl⟩ : ∃ j', j = j' + 1 := ⟨j - 1, by omega⟩
      have hidx : k + (j' + 1 + 1) = k + 1 + (j' + 1) := by omega
      simp only [Nat.add_sub_cancel, List.getD_cons_succ, hidx]
    by_cases h1 : o.still_has_data = false
    · refine ⟨by simp [read_chunk_calls, h1], ?_, ?_⟩
      · simp [read_chunk_calls, h1, codeStopCond]
      · intro j hj1 hj2
        simp [read_chunk_calls, h1] at hj2
        omega
    · have h1' : o.still_has_data = true := by
        cases h : o.still_has_data
        · exact absurd h h1
        · rfl
      by_cases h2 : (single || decide (k + 1 > rp_max)) = true
      · refine ⟨?_, ?_, ?_⟩
        · simp [read_chunk_calls, h1, h2]
        · have : read_chunk_calls single rp_max (o :: rest) k = 1 := by
            simp [read_chunk_calls, h1, h2]
          rw [this]
          simp only [codeStopCond, List.getD_cons_zero]
          rcases Bool.or_eq_true_iff.mp h2 with hs | hr
          · simp [hs]
          · simp [hr]
        · intro j hj1 hj2
          have : read_chunk_calls single rp_max (o :: rest) k = 1 := by
            simp [read_chunk_calls, h1, h2]
          omega
      · have h2' : single = false ∧ decide (k + 1 > rp_max) = false := by
          constructor
          · cases hs : single
            · rfl
            · exact absurd (by simp [hs]) h2
          · cases hr : decide (k + 1 > rp_max)
            · rfl
            · exact absurd (by simp [hr]) h2
        by_cases h3 : o.any_full = true
        · refine ⟨?_, ?_, ?_⟩
          · simp [read_chunk_calls, h1, h2, h3]
          · have : read_chunk_calls single rp_max (o :: rest) k = 1 := by
              simp [read_chunk_calls, h1, h2, h3]
            rw [this]
            simp [codeStopCond, h3]
          · intro j hj1 hj2
            have : read_chunk_calls single rp_max (o :: rest) k = 1 := by
              simp [read_chunk_calls, h1, h2, h3]
            omega
        · have h3' : o.any_full = false := by
            cases hf : o.any_full
            · rfl
            · exact absurd hf h3
          obtain ⟨ihc1, ihc2, ihc3⟩ := ih (k + 1)
          have hcalls : read_chunk_calls single rp_max (o :: rest) k
              = 1 + read_chunk_calls single rp_max rest (k + 1) := by
            simp [read_chunk_calls, h1, h2, h3]
          refine ⟨by omega, ?_, ?_⟩
          · rw [hcalls]
            have heq : 1 + read_chunk_calls single rp_max rest (k + 1)
                = read_chunk_calls single rp_max rest (k + 1) + 1 := by omega
            rw [heq, hshift _ ihc1]
            exact ihc2
          · intro j hj1 hj2
            rw [hcalls] at hj2
            rcases Nat.eq_or_lt_of_le hj1 with hj1' | hj1'
            · rw [← hj1']
              simp [codeStopCond, h1', h2'.1, h2'.2, h3']
            · obtain ⟨j', rfl⟩ : ∃ j', j = j' + 1 := ⟨j - 1, by omega⟩
              rw [hshift j' (by omega)]
              exact ihc3 j' (by omega) (by omega)

/-- Counterexample to claim C2 as stated: with override policy `only_full`
(stored mode `any_full`), `rp_max = 10` and a stream whose first packet
leaves data remaining but sets `any_full`, the loop stops after one call —
yet none of the claim's four conditions holds there (the policy is not
`any_full`, so the claim says the flag must not stop the loop). -/
theorem read_chunk_stop_counterexample :
    read_chunk_n_calls "any_full" (some "only_full") 10
      [⟨true, true⟩, ⟨true, false⟩, ⟨true, false⟩] = 1 ∧
    claimStopCond "only_full" 10
      [⟨true, true⟩, ⟨true, false⟩, ⟨true, false⟩] 1 = false := by
  decide

/-- Claim C2 (amended): the packet loop stops exactly at the first call `j`
at which one of these holds: no data remains; the effective policy is
`single_packet`; more than `rp_max` packets have been read (i.e. after
`rp_max + 1` packets); or the engine's `any_full` flag is set — the flag
stops the loop under every policy, not only `any_full`. -/
theorem read_chunk_loop_stop (stored_mode : String)
    (chunk_mode_override : Option String) (rp_max : Nat)
    (stream : List PacketOutcome) :
    1 ≤ read_chunk_n_calls stored_mode chunk_mode_override rp_max stream ∧
    codeStopCond
      (effective_chunk_mode stored_mode chunk_mode_override == "single_packet")
      rp_max stream 0
      (read_chunk_n_calls stored_mode chunk_mode_override rp_max stream)
      = true ∧
    ∀ j, 1 ≤ j →
      j < read_chunk_n_calls stored_mode chunk_mode_override rp_max stream →
      codeStopCond
        (effective_chunk_mode stored_mode chunk_mode_override == "single_packet")
        rp_max stream 0 j = false := by
  unfold read_chunk_n_calls
  exact read_chunk_calls_spec _ rp_max stream 0

/-- Witness for `read_chunk_loop_stop`: default `any_full` mode, no override,
`rp_max = 2`, a three-packet stream whose second packet sets `any_full`; the
loop makes exactly two calls. -/
theorem read_chunk_loop_stop_witness :
    1 ≤ read_chunk_n_calls "any_full" none 2
      [⟨true, false⟩, ⟨true, true⟩, ⟨true, false⟩] ∧
    codeStopCond (effective_chunk_mode "any_full" none == "single_packet") 2
      [⟨true, false⟩, ⟨true, true⟩, ⟨true, false⟩] 0
      (read_chunk_n_calls "any_full" none 2
        [⟨true, false⟩, ⟨true, true⟩, ⟨true, false⟩]) = true ∧
    ∀ j, 1 ≤ j →
      j < read_chunk_n_calls "any_full" none 2
        [⟨true, false⟩, ⟨true, true⟩, ⟨true, false⟩] →
      codeStopCond (effective_chunk_mode "any_full" none == "single_packet") 2
        [⟨true, false⟩, ⟨true, true⟩, ⟨true, false⟩] 0 j = false :=
  read_chunk_loop_stop "any_full" none 2
    [⟨true, false⟩, ⟨true, true⟩, ⟨true, false⟩]

/-- A value stored in a `RawBuffer.out_name` slot.  Python is untyped here:
`open_stream` passes `out_name=decoder` — the decoder *object* — where a
string is expected; `decObj s` marks the decoder object whose class name is
`s`, as distinct from the plain string `str s`. -/
inductive OutName where
  | str : String → OutName
  | decObj : String → OutName
deriving Repr, DecidableEq

def outNameText : OutName → String
  | .str s => s
  | .decObj s => s

/-- One `RawBuffer`: output-destination strings, fill cursor `loc`, and the
length of its lgdo when the lgdo has `__len__` (`none` models an lgdo without
`__len__`, the `hasattr(rb.lgdo, '__len__')` distinction in `read_chunk`). -/
structure RawBuffer where
  out_stream : String
  out_name : OutName
  loc : Nat
  lgdo_len : Option Nat
deriving Repr, DecidableEq

/-- Python `str.format(name=dec_key)` for the templates used here: substitute
every `\x7bname\x7d` placeholder (the only placeholder these templates carry). -/
def replaceNameChars (repl : List Char) : List Char → List Char
  | c0 :: c1 :: c2 :: c3 :: c4 :: c5 :: rest =>
    if c0 = Char.ofNat 123 ∧ c1 = 'n' ∧ c2 = 'a' ∧ c3 = 'm' ∧ c4 = 'e' ∧
        c5 = Char.ofNat 125 then
      repl ++ replaceNameChars repl rest
    else c0 :: replaceNameChars repl (c1 :: c2 :: c3 :: c4 :: c5 :: rest)
  | c :: rest => c :: replaceNameChars repl rest
  | [] => []

def pyFormatName (t dec_key : String) : String :=
  ⟨replaceNameChars dec_key.data t.data⟩

/-- Python `str.removesuffix`: drop the suffix when present. -/
def pyRemoveSuffix (s suf : String) : String :=
  if suf.data.isSuffixOf s.data then s.dropRight suf.length else s

/-- The wildcard-reconciliation loop of `DataStreamer.open_stream` over the
decoder registry (decoders identified by their class names; `rb_lib` as an
association list preserving insertion order).  Embedded statement by
statement from the source:

* `if dec_name not in rb_lib:` / `if '*' not in rb_lib: continue`;
* `dec_key = dec_name` followed by
  `if dec_key.endswith('Decoder'): dec_key.removesuffix('Decoder')` — the
  source *discards* the result (`str.removesuffix` returns a new string), so
  `dec_key` keeps its suffix; the discarded value is `_stripped` here;
* `out_name = rb_lib['*'][0].out_name.format(name=dec_key)` — computed and
  then never used (`_out_name`);
* `rb = RawBuffer(out_stream=out_stream, out_name=decoder)` — the new
  binding's `out_name` is the decoder object, not the formatted template;
* `rb_lib[dec_name] = RawBufferList(); rb_lib[dec_name].append(rb)`.

The `make_lgdos` initialization of matched buffers touches only lgdo
allocation and is outside this claim. -/
def open_stream_buffers (decoders : List String)
    (rb_lib : List (String × List RawBuffer)) :
    List (String × List RawBuffer) :=
  decoders.foldl
    (fun lib dec_name =>
      if (lib.lookup dec_name).isSome then lib
      else
        match lib.lookup "*" with
        | none => lib
        | some tmpl_list =>
          match tmpl_list.head? with
          | none => lib
          | some tmpl =>
            let dec_key := dec_name
            let _stripped := pyRemoveSuffix dec_key "Decoder"
            let _out_name := pyFormatName (outNameText tmpl.out_name) dec_key
            let out_stream := pyFormatName tmpl.out_stream dec_key
            lib ++ [(dec_name, [⟨out_stream, OutName.decObj dec_name, 0, none⟩])])
    rb_lib

/-- Claim C8: the code evaluated at a failing input.  Registry `["FooDecoder"]`,
library holding only the wildcard template with `out_name = "\x7bname\x7d_buf"`
and `out_stream = "\x7bname\x7d.lh5"`.  The claim predicts a materialized
binding with `out_name = "Foo_buf"` and `out_stream = "Foo.lh5"` (suffix
`Decoder` stripped, both fields from the templates); the source instead
substitutes the unstripped name (the `removesuffix` result is discarded) and
stores the decoder object in `out_name` (the formatted `out_name` string is
computed but unused). -/
theorem open_stream_wildcard_unstripped :
    open_stream_buffers ["FooDecoder"]
      [("*", [⟨"\x7bname\x7d.lh5", .str "\x7bname\x7d_buf", 0, none⟩])]
      = [("*", [⟨"\x7bname\x7d.lh5", .str "\x7bname\x7d_buf", 0, none⟩]),
         ("FooDecoder",
           [⟨"FooDecoder.lh5", .decObj "FooDecoder", 0, none⟩])] ∧
    ("FooDecoder.lh5" ≠ "Foo.lh5" ∧
      OutName.decObj "FooDecoder" ≠ .str "Foo_buf") := by
  decide

/-- The eligibility filter at the end of `read_chunk` (embedded per the
source's evident intent: the filter block iterates every buffer of every
list of `rb_lib` — the source's `for rb_list in self.rb_lib.items()` /
`rb.lgod` misspellings would crash as written): -/
def buffer_eligible (only_full : Bool) (rb : RawBuffer) : Bool :=
  if !only_full && decide (rb.loc > 0) then true
  else
    match rb.lgdo_len with
    | none => decide (rb.loc > 0)
    | some l => rb.loc == l

/-- `DataStreamer.read_chunk`: runs the packet loop, then returns
`list_of_rbs` — and nothing else: the final statement is
`return list_of_rbs`, so the byte count `self.n_bytes_read` accumulated by
`read_packet` is not part of the return value, contradicting the docstring's
`chunk_list, n_bytes`. -/
def read_chunk (stored_mode : String) (chunk_mode_override : Option String)
    (rp_max : Nat) (stream : List PacketOutcome)
    (rb_lib : List (String × List RawBuffer)) : List RawBuffer :=
  let chunk_mode := effective_chunk_mode stored_mode chunk_mode_override
  let only_full := chunk_mode == "only_full"
  let _n_calls := read_chunk_calls (chunk_mode == "single_packet") rp_max stream 0
  ((rb_lib.map Prod.snd).flatten).filter (buffer_eligible only_full)

/-- Claim C3: the code evaluated at a failing input.  `read_chunk` returns
the bare list of eligible buffer bindings; no byte count accompanies it (the
source's `return list_of_rbs` drops the documented `n_bytes`). -/
theorem read_chunk_returns_only_buffer_list :
    read_chunk "any_full" none 1000000 [⟨true, true⟩]
      [("A", [⟨"s", .str "a", 3, some 8⟩]),
       ("B", [⟨"t", .str "b", 0, some 8⟩])]
      = [⟨"s", .str "a", 3, some 8⟩] := by
  decide
